import Mathlib

/-!
Shallow embedding of the whisper_streaming server (whisper_online_server.py).

The file models the per-connection streaming session protocol of the server:
the outgoing line channel with its duplicate suppression (class Connection),
the audio accumulation loop (ServerProcessor.receive_audio_chunk), the
timestamp stitching (ServerProcessor.format_output_transcript and
send_result), and the per-connection loop (ServerProcessor.process).

Modelling conventions:
- Python floats are modelled as rationals.
- The socket byte stream from the client is a list of byte chunks, one per
  raw read; an exhausted list means the peer closed, so a further read
  returns the empty chunk, exactly the way conn.recv returns an empty bytes
  object on close.
- The recognition engine (OnlineASRProcessor from whisper_online, an
  external collaborator per the spec) is an oracle: an environment gives
  the segment returned by process_iter at each loop iteration.  Calls made
  to the engine are recorded in a trace so that properties about which
  calls happen can be stated.
- The wire write (line_packet.send_one_line) is modelled as appending the
  line to a log of sent lines; a Boolean oracle says whether the write
  raises BrokenPipeError instead.
-/

/-- Fixed sampling rate of the server: SAMPLING_RATE = 16000. -/
def SAMPLING_RATE : ℕ := 16000

/-- A transcript segment as returned by the recognition adapter, the tuple o
consumed by format_output_transcript: o[0] is the begin time in seconds
(None meaning no stable text yet), o[1] the end time in seconds, o[2] the
text.  When the begin time is absent the end time is never read by the
server, so it is kept as a plain rational here. -/
structure Segment where
  beg : Option ℚ
  end_ : ℚ
  text : String
deriving DecidableEq

/-- ServerProcessor.format_output_transcript.  It takes the current value of
the mutable field self.last_end (the stitching watermark, in milliseconds)
and the segment o, and returns the new value of self.last_end together with
the optional output message.  Mirrors the source: when o[0] is not None,
beg and end are o[0]*1000 and o[1]*1000, beg is clamped to max(beg,
last_end) when last_end is set, last_end is set to end and the message
(beg, end, text) is produced; otherwise nothing changes and no message is
produced. -/
def format_output_transcript (last_end : Option ℚ) (o : Segment) :
    Option ℚ × Option (ℚ × ℚ × String) :=
  match o.beg with
  | some b0 =>
      let beg : ℚ := b0 * 1000
      let endv : ℚ := o.end_ * 1000
      let beg2 : ℚ :=
        match last_end with
        | some le => max beg le
        | none => beg
      (some endv, some (beg2, endv, o.text))
  | none => (last_end, none)

/-- Millisecond rendering of the output line: the source prints the two
timestamps with the format %1.0f, i.e. rounded to the nearest integer. -/
def fmtMs (q : ℚ) : ℤ := round q

/-- Rendering of an output message as the line put on the wire, the string
built by the format %1.0f %1.0f %s. -/
def renderLine (m : ℚ × ℚ × String) : String :=
  toString (fmtMs m.1) ++ " " ++ toString (fmtMs m.2.1) ++ " " ++ m.2.2

/-- State of a Connection object: the dedup field self.last_line, plus the
log of lines actually written to the socket (the effect of the external
line_packet.send_one_line calls, recorded for specification purposes). -/
structure Conn where
  last_line : String
  sent : List String
deriving DecidableEq

/-- A freshly constructed Connection: Connection.__init__ sets
self.last_line to the empty string, and nothing has been written yet. -/
def Conn.initial : Conn := { last_line := "", sent := [] }

/-- Connection.send.  If the line equals self.last_line the call returns at
once (no write).  Otherwise line_packet.send_one_line writes the line; that
external write is modelled from the spec: it frames and writes the line, and
it can raise BrokenPipeError when the peer has closed, which the fail flag
decides here.  On a successful write self.last_line is updated; when the
write raises, the update is not reached. -/
def Connection.send (fail : Bool) (c : Conn) (line : String) :
    Except Unit Conn :=
  if line = c.last_line then Except.ok c
  else if fail then Except.error ()
  else Except.ok { last_line := line, sent := c.sent ++ [line] }

/-- Connection.send specialised to a healthy socket, for reasoning about
runs of sends on one connection. -/
def sendOk (c : Conn) (line : String) : Conn :=
  match Connection.send false c line with
  | Except.ok c2 => c2
  | Except.error _ => c

/-- A run of Connection.send calls on one connection, oldest first. -/
def runSends (c : Conn) (lines : List String) : Conn :=
  lines.foldl sendOk c

/-- Modelled from the spec: decoding of one little-endian 16-bit sample.
The decoding itself is done by the external soundfile and librosa
libraries, absent from the repository; the spec fixes the format as
little-endian 16-bit PCM mono.  Two bytes give the signed 16-bit value. -/
def i16le (lo hi : ℕ) : ℤ :=
  let u : ℤ := (lo : ℤ) + 256 * (hi : ℤ)
  if u < 32768 then u else u - 65536

/-- Modelled from the spec: the byte list of a raw payload split into
signed 16-bit little-endian samples; a trailing odd byte yields no sample. -/
def decodeBytes : List ℕ → List ℤ
  | lo :: hi :: rest => i16le lo hi :: decodeBytes rest
  | _ => []

/-- Modelled from the spec: a raw payload decoded into normalized
floating-point samples, each signed 16-bit value divided by 32768 (the
normalization librosa.load performs). -/
def decode_pcm16 (bs : List ℕ) : List ℚ :=
  (decodeBytes bs).map (fun i => (i : ℚ) / 32768)

/-- The loop body of ServerProcessor.receive_audio_chunk.  The stream is
the list of byte chunks the peer will deliver, one per raw read; reading
from the exhausted stream returns the empty chunk, the close signal.  The
accumulator out is the list of decoded sample arrays collected so far.
While the total sample count is below min_chunk*SAMPLING_RATE, a raw read
is performed; an empty result breaks the loop, otherwise the decoded
samples are appended and the loop continues.  On exit, the function
returns None when out is empty and the concatenation of out otherwise,
together with the part of the stream not yet consumed. -/
def receive_audio_chunk_aux (min_chunk : ℚ) :
    List (List ℕ) → List (List ℚ) → Option (List ℚ) × List (List ℕ)
  | [], out =>
      (if out.isEmpty then none else some out.flatten, [])
  | ch :: rest, out =>
      if ((out.map List.length).sum : ℚ) < min_chunk * (SAMPLING_RATE : ℚ) then
        if ch.isEmpty then (if out.isEmpty then none else some out.flatten, rest)
        else receive_audio_chunk_aux min_chunk rest (out ++ [decode_pcm16 ch])
      else (if out.isEmpty then none else some out.flatten, ch :: rest)

/-- Unfolding of the accumulation loop on the exhausted stream. -/
lemma receive_aux_nil (min_chunk : ℚ) (out : List (List ℚ)) :
    receive_audio_chunk_aux min_chunk [] out =
      (if out.isEmpty then none else some out.flatten, []) :=
  rfl

/-- Unfolding of the accumulation loop on a stream with a pending chunk. -/
lemma receive_aux_cons (min_chunk : ℚ) (ch : List ℕ) (rest : List (List ℕ))
    (out : List (List ℚ)) :
    receive_audio_chunk_aux min_chunk (ch :: rest) out =
      if ((out.map List.length).sum : ℚ) < min_chunk * (SAMPLING_RATE : ℚ) then
        if ch.isEmpty then (if out.isEmpty then none else some out.flatten, rest)
        else receive_audio_chunk_aux min_chunk rest (out ++ [decode_pcm16 ch])
      else (if out.isEmpty then none else some out.flatten, ch :: rest) :=
  rfl

/-- ServerProcessor.receive_audio_chunk: the loop above started with the
empty accumulator. -/
def receive_audio_chunk (min_chunk : ℚ) (stream : List (List ℕ)) :
    Option (List ℚ) × List (List ℕ) :=
  receive_audio_chunk_aux min_chunk stream []

/-- One call made to the recognition engine, for recording session traces:
init, insert_audio_chunk, process_iter and the finish call that the source
keeps commented out. -/
inductive AdapterOp
  | init
  | insert_audio_chunk (a : List ℚ)
  | process_iter
  | finish
deriving DecidableEq

/-- How a session ended: the end-of-stream sentinel from
receive_audio_chunk, or BrokenPipeError caught around send_result. -/
inductive CloseReason
  | eos
  | brokenPipe
deriving DecidableEq

/-- Oracle for the external world of one session: segs n is the segment
process_iter returns at iteration n, and sendFails n says whether a wire
write attempted at iteration n raises BrokenPipeError. -/
structure Env where
  segs : ℕ → Segment
  sendFails : ℕ → Bool

/-- Final state of one session: the stitching watermark self.last_end, the
Connection state, the trace of recognition-engine calls, and how the loop
ended. -/
structure SessState where
  last_end : Option ℚ
  conn : Conn
  trace : List AdapterOp
  closedBy : CloseReason
deriving DecidableEq

/-- ServerProcessor.send_result: format_output_transcript runs first and
updates self.last_end; when it produced a message, the line is sent on the
connection (and only then), where the write can raise. -/
def send_result (fail : Bool) (last_end : Option ℚ) (c : Conn) (o : Segment) :
    Option ℚ × Except Unit Conn :=
  match format_output_transcript last_end o with
  | (le, some m) => (le, Connection.send fail c (renderLine m))
  | (le, none) => (le, Except.ok c)

/-- Remaining stream after the accumulation loop is never longer than the
stream it started from. -/
lemma receive_aux_rest_le (min_chunk : ℚ) :
    ∀ (stream : List (List ℕ)) (out : List (List ℚ)),
      (receive_audio_chunk_aux min_chunk stream out).2.length ≤ stream.length := by
  intro stream
  induction stream with
  | nil =>
      intro out
      rw [receive_aux_nil]
  | cons ch rest ih =>
      intro out
      rw [receive_aux_cons]
      split
      · split
        · exact Nat.le_succ _
        · exact Nat.le_trans (ih _) (Nat.le_succ _)
      · exact Nat.le_refl _

/-- When receive_audio_chunk returns audio, at least one raw read consumed
a chunk, so the remaining stream is strictly shorter. -/
lemma receive_some_rest_lt (min_chunk : ℚ) (stream : List (List ℕ))
    (a : List ℚ) (rest : List (List ℕ))
    (h : receive_audio_chunk min_chunk stream = (some a, rest)) :
    rest.length < stream.length := by
  rw [receive_audio_chunk] at h
  cases stream with
  | nil =>
      rw [receive_aux_nil] at h
      simp at h
  | cons ch tl =>
      rw [receive_aux_cons] at h
      split at h
      · split at h
        · simp at h
        · rw [List.nil_append] at h
          have h2 := receive_aux_rest_le min_chunk tl [decode_pcm16 ch]
          rw [h] at h2
          exact Nat.lt_of_le_of_lt h2 (Nat.lt_succ_self _)
      · simp at h

/-- ServerProcessor.process, one client connection, iterating from loop
counter n with current watermark, connection state and recorded trace.
Each iteration receives a chunk (breaking on the sentinel), records the
insert_audio_chunk and process_iter calls to the recognition engine, and
runs send_result inside the try block: a BrokenPipeError from the write is
caught and breaks the loop. -/
def processLoop (min_chunk : ℚ) (env : Env) (n : ℕ) (stream : List (List ℕ))
    (le : Option ℚ) (c : Conn) (tr : List AdapterOp) : SessState :=
  match h : receive_audio_chunk min_chunk stream with
  | (none, _) => ⟨le, c, tr, CloseReason.eos⟩
  | (some a, rest) =>
      let tr2 := tr ++ [AdapterOp.insert_audio_chunk a, AdapterOp.process_iter]
      match send_result (env.sendFails n) le c (env.segs n) with
      | (le2, Except.ok c2) => processLoop min_chunk env (n + 1) rest le2 c2 tr2
      | (le2, Except.error _) => ⟨le2, c, tr2, CloseReason.brokenPipe⟩
termination_by stream.length
decreasing_by
  exact receive_some_rest_lt min_chunk stream a rest h

/-- ServerProcessor.process on a fresh session: self.last_end is None, the
connection is fresh, and the loop is entered right after the init call to
the recognition engine. -/
def ServerProcessor.process (min_chunk : ℚ) (env : Env)
    (stream : List (List ℕ)) : SessState :=
  processLoop min_chunk env 0 stream none Conn.initial [AdapterOp.init]

/-- The accept loop serves each accepted connection to completion with a
fresh ServerProcessor, then moves to the next one. -/
def serve (min_chunk : ℚ) (conns : List (Env × List (List ℕ))) :
    List SessState :=
  conns.map (fun p => ServerProcessor.process min_chunk p.1 p.2)

/-- One step of the timestamp stitching as seen from the session state: the
watermark and the list of messages emitted so far, extended by a call of
format_output_transcript. -/
def stitchStep (st : Option ℚ × List (ℚ × ℚ × String)) (o : Segment) :
    Option ℚ × List (ℚ × ℚ × String) :=
  let r := format_output_transcript st.1 o
  (r.1, st.2 ++ r.2.toList)

/-- The messages a whole session emits for a given sequence of adapter
segments, starting from the unset watermark of a fresh session. -/
def stitchRun (segs : List Segment) : Option ℚ × List (ℚ × ℚ × String) :=
  segs.foldl stitchStep (none, [])

/-- The audio arrays passed to the recognition engine in a trace. -/
def insertedAudio (tr : List AdapterOp) : List (List ℚ) :=
  tr.filterMap (fun op =>
    match op with
    | AdapterOp.insert_audio_chunk a => some a
    | _ => none)

/-- Reading with an exhausted stream immediately yields the end-of-stream
sentinel. -/
lemma receive_empty (min_chunk : ℚ) :
    receive_audio_chunk min_chunk [] = (none, []) := by
  rw [receive_audio_chunk, receive_aux_nil]
  rfl

/-- Characterization of the accumulation loop when every pending chunk is
nonempty (a socket read returns the empty byte string only at close): the
loop consumes a prefix of the stream, the result is the concatenation of
the accumulator with the decoded samples of that prefix, and the loop can
stop only because the sample threshold was reached or because the whole
stream was consumed. -/
lemma receive_aux_spec (min_chunk : ℚ) :
    ∀ (stream : List (List ℕ)) (out : List (List ℚ)),
      (∀ ch ∈ stream, ch ≠ []) →
      ∃ consumed,
        stream = consumed ++ (receive_audio_chunk_aux min_chunk stream out).2
        ∧ (receive_audio_chunk_aux min_chunk stream out).1
            = (if (out ++ consumed.map decode_pcm16).isEmpty then none
               else some (out ++ consumed.map decode_pcm16).flatten)
        ∧ (min_chunk * (SAMPLING_RATE : ℚ)
              ≤ (((out ++ consumed.map decode_pcm16).map List.length).sum : ℚ)
           ∨ (receive_audio_chunk_aux min_chunk stream out).2 = []) := by
  intro stream
  induction stream with
  | nil =>
      intro out hne
      exact ⟨[], by simp [receive_aux_nil], by simp [receive_aux_nil],
        Or.inr (by simp [receive_aux_nil])⟩
  | cons ch rest ih =>
      intro out hne
      have hch : ch ≠ [] := hne ch (List.mem_cons_self _ _)
      have hchE : ch.isEmpty = false := by
        cases ch with
        | nil => exact absurd rfl hch
        | cons b bs => rfl
      by_cases hcond :
          ((out.map List.length).sum : ℚ) < min_chunk * (SAMPLING_RATE : ℚ)
      · rw [receive_aux_cons, if_pos hcond, hchE]
        simp only [Bool.false_eq_true, if_false]
        obtain ⟨consumed, h1, h2, h3⟩ :=
          ih (out ++ [decode_pcm16 ch])
            (fun c hc => hne c (List.mem_cons_of_mem _ hc))
        have hassoc :
            (out ++ [decode_pcm16 ch]) ++ consumed.map decode_pcm16
              = out ++ (ch :: consumed).map decode_pcm16 := by
          simp
        refine ⟨ch :: consumed, ?_, ?_, ?_⟩
        · rw [List.cons_append]
          exact congrArg (List.cons ch) h1
        · rw [h2, hassoc]
        · rw [hassoc] at h3
          exact h3
      · rw [receive_aux_cons, if_neg hcond]
        refine ⟨[], by simp, by simp, Or.inl ?_⟩
        push_neg at hcond
        simpa using hcond

/-- The session loop ends with the eos close reason, leaving the state
untouched, whenever receive_audio_chunk reports the end-of-stream
sentinel. -/
lemma processLoop_eos (min_chunk : ℚ) (env : Env) (n : ℕ)
    (stream : List (List ℕ)) (le : Option ℚ) (c : Conn) (tr : List AdapterOp)
    (h : (receive_audio_chunk min_chunk stream).1 = none) :
    processLoop min_chunk env n stream le c tr
      = ⟨le, c, tr, CloseReason.eos⟩ := by
  rw [processLoop.eq_def]
  split
  · rfl
  · rename_i a rest heq
    rw [heq] at h
    simp at h

/-- One unfolding of the session loop when a chunk of audio was received:
the insert_audio_chunk and process_iter calls are recorded, then the send
attempt decides between continuing and the BrokenPipeError break. -/
lemma processLoop_step (min_chunk : ℚ) (env : Env) (n : ℕ)
    (stream : List (List ℕ)) (le : Option ℚ) (c : Conn) (tr : List AdapterOp)
    (a : List ℚ) (rest : List (List ℕ))
    (h : receive_audio_chunk min_chunk stream = (some a, rest)) :
    processLoop min_chunk env n stream le c tr
      = (match send_result (env.sendFails n) le c (env.segs n) with
         | (le2, Except.ok c2) =>
             processLoop min_chunk env (n + 1) rest le2 c2
               (tr ++ [AdapterOp.insert_audio_chunk a, AdapterOp.process_iter])
         | (le2, Except.error _) =>
             ⟨le2, c,
              tr ++ [AdapterOp.insert_audio_chunk a, AdapterOp.process_iter],
              CloseReason.brokenPipe⟩) := by
  rw [processLoop.eq_def]
  split
  · rename_i heq
    rw [h] at heq
    simp at heq
  · rename_i a2 rest2 heq
    rw [h] at heq
    obtain ⟨h1, h2⟩ := Prod.mk.injEq .. ▸ heq
    cases h1
    cases h2
    rfl

/-- Invariant of the stitching fold: when the emitted messages so far are
non-overlapping and the watermark carries the end of the last emitted
message, the same holds after feeding any further segments. -/
lemma stitch_invariant (segs : List Segment) :
    ∀ (le : Option ℚ) (outs : List (ℚ × ℚ × String)),
      List.Chain' (fun p q : ℚ × ℚ × String => p.2.1 ≤ q.1) outs →
      (∀ p ∈ outs.getLast?, le = some p.2.1) →
      List.Chain' (fun p q : ℚ × ℚ × String => p.2.1 ≤ q.1)
        (segs.foldl stitchStep (le, outs)).2 := by
  induction segs with
  | nil =>
      intro le outs h1 _
      simpa using h1
  | cons o rest ih =>
      intro le outs h1 h2
      rw [List.foldl_cons]
      cases hbeg : o.beg with
      | none =>
          have hstep : stitchStep (le, outs) o = (le, outs) := by
            simp [stitchStep, format_output_transcript, hbeg]
          rw [hstep]
          exact ih le outs h1 h2
      | some b =>
          have hstep : stitchStep (le, outs) o =
              (some (o.end_ * 1000),
               outs ++ [((match le with
                          | some l => max (b * 1000) l
                          | none => b * 1000),
                         o.end_ * 1000, o.text)]) := by
            simp [stitchStep, format_output_transcript, hbeg]
          rw [hstep]
          apply ih
          · rw [List.chain'_append]
            refine ⟨h1, List.chain'_singleton _, ?_⟩
            intro x hx y hy
            simp only [List.head?_cons, Option.mem_def, Option.some.injEq] at hy
            subst hy
            have hle := h2 x hx
            rw [hle]
            exact le_max_right _ _
          · intro p hp
            rw [List.getLast?_concat, Option.mem_def, Option.some.injEq] at hp
            subst hp
            rfl

/-- Invariant of a run of sends: when the lines written so far have no two
equal neighbours and the dedup field holds the last written line (when one
exists), the same holds after any further sends. -/
lemma runSends_invariant (lines : List String) :
    ∀ c : Conn,
      List.Chain' (fun a b : String => a ≠ b) c.sent →
      (∀ s ∈ c.sent.getLast?, c.last_line = s) →
      List.Chain' (fun a b : String => a ≠ b) (runSends c lines).sent := by
  induction lines with
  | nil =>
      intro c h1 _
      simpa [runSends] using h1
  | cons l rest ih =>
      intro c h1 h2
      have hrun : runSends c (l :: rest) = runSends (sendOk c l) rest := rfl
      rw [hrun]
      by_cases hl : l = c.last_line
      · have hstep : sendOk c l = c := by
          simp [sendOk, Connection.send, hl]
        rw [hstep]
        exact ih c h1 h2
      · have hstep : sendOk c l =
            { last_line := l, sent := c.sent ++ [l] } := by
          simp [sendOk, Connection.send, hl]
        rw [hstep]
        apply ih
        · rw [List.chain'_append]
          refine ⟨h1, List.chain'_singleton _, ?_⟩
          intro x hx y hy
          simp only [List.head?_cons, Option.mem_def, Option.some.injEq] at hy
          subst hy
          have := h2 x hx
          intro hxl
          exact hl (by rw [hxl] at this; exact this.symm)
        · intro s hs
          rw [List.getLast?_concat, Option.mem_def, Option.some.injEq] at hs
          subst hs
          rfl

/-- An output line is never the empty string (it contains two spaces), so
it always differs from the initial dedup state of a fresh connection. -/
lemma renderLine_ne_nil (m : ℚ × ℚ × String) : renderLine m ≠ "" := by
  intro h
  have hlen := congrArg String.length h
  simp [renderLine, String.length_append] at hlen
  exact absurd hlen.1.2 (by decide)

/-- With a positive minimum chunk and no empty reads before close, the
sentinel is returned exactly when the peer closed before sending any
bytes. -/
lemma receive_none_iff (mc : ℚ) (stream : List (List ℕ))
    (hmc : 0 < mc) (hne : ∀ ch ∈ stream, ch ≠ []) :
    (receive_audio_chunk mc stream).1 = none ↔ stream = [] := by
  constructor
  · intro h
    obtain ⟨consumed, h1, h2, h3⟩ := receive_aux_spec mc stream [] hne
    rw [receive_audio_chunk] at h
    rw [h] at h2
    by_cases hc : (([] : List (List ℚ)) ++ consumed.map decode_pcm16).isEmpty = true
    · have hcons : consumed = [] := by
        simpa [List.isEmpty_iff] using hc
      subst hcons
      cases h3 with
      | inl hle =>
          exfalso
          have hpos : (0 : ℚ) < mc * (SAMPLING_RATE : ℚ) := by
            have hsr : (0 : ℚ) < (SAMPLING_RATE : ℚ) := by
              norm_num [SAMPLING_RATE]
            exact mul_pos hmc hsr
          simp at hle
          linarith
      | inr hrest =>
          rw [hrest] at h1
          simpa using h1
    · rw [if_neg hc] at h2
      simp at h2
  · intro h
    subst h
    rw [receive_empty]

/-- Below the sample threshold, the loop drains the entire stream and
returns all the decoded audio at once, with nothing left pending. -/
lemma receive_below_threshold (mc : ℚ) (stream : List (List ℕ))
    (hne : ∀ ch ∈ stream, ch ≠ []) (hs : stream ≠ [])
    (hlt : (((stream.map decode_pcm16).map List.length).sum : ℚ)
            < mc * (SAMPLING_RATE : ℚ)) :
    receive_audio_chunk mc stream
      = (some (stream.map decode_pcm16).flatten, []) := by
  obtain ⟨consumed, h1, h2, h3⟩ := receive_aux_spec mc stream [] hne
  have hrest : (receive_audio_chunk_aux mc stream []).2 = [] := by
    cases h3 with
    | inr h => exact h
    | inl hle =>
        exfalso
        have hdecomp :
            ((stream.map decode_pcm16).map List.length).sum
              = ((consumed.map decode_pcm16).map List.length).sum
                + ((((receive_audio_chunk_aux mc stream []).2).map
                      decode_pcm16).map List.length).sum := by
          conv_lhs => rw [h1]
          simp
        have hmono :
            ((((consumed.map decode_pcm16).map List.length).sum : ℕ) : ℚ)
              ≤ (((stream.map decode_pcm16).map List.length).sum : ℚ) := by
          exact_mod_cast Nat.le.intro hdecomp.symm
        rw [List.nil_append] at hle
        linarith
  have hconsumed : consumed = stream := by
    rw [hrest] at h1
    exact (by simpa using h1 : stream = consumed).symm
  have hmapne : stream.map decode_pcm16 ≠ [] := by
    simpa using hs
  have h2' : (receive_audio_chunk_aux mc stream []).1
      = some (stream.map decode_pcm16).flatten := by
    rw [h2, hconsumed]
    simp [List.isEmpty_iff, hmapne]
  rw [receive_audio_chunk]
  exact Prod.ext h2' hrest

/-- The session loop never records a finish call: whatever happens, the
trace only ever grows by insert_audio_chunk and process_iter entries. -/
lemma processLoop_no_finish (mc : ℚ) (env : Env) :
    ∀ (N : ℕ) (stream : List (List ℕ)), stream.length ≤ N →
      ∀ (n : ℕ) (le : Option ℚ) (c : Conn) (tr : List AdapterOp),
        AdapterOp.finish ∉ tr →
        AdapterOp.finish ∉ (processLoop mc env n stream le c tr).trace := by
  intro N
  induction N with
  | zero =>
      intro stream hlen n le c tr htr
      have hnil : stream = [] := List.length_eq_zero.mp (Nat.le_zero.mp hlen)
      subst hnil
      rw [processLoop_eos mc env n [] le c tr (by rw [receive_empty])]
      exact htr
  | succ N ih =>
      intro stream hlen n le c tr htr
      rcases hr : receive_audio_chunk mc stream with ⟨r1, rest⟩
      cases r1 with
      | none =>
          rw [processLoop_eos mc env n stream le c tr (by rw [hr])]
          exact htr
      | some a =>
          rw [processLoop_step mc env n stream le c tr a rest hr]
          have htr2 : AdapterOp.finish ∉
              tr ++ [AdapterOp.insert_audio_chunk a, AdapterOp.process_iter] := by
            simp [List.mem_append, htr]
          have hrestlen : rest.length ≤ N := by
            have := receive_some_rest_lt mc stream a rest hr
            omega
          rcases hsr : send_result (env.sendFails n) le c (env.segs n) with ⟨le2, ex⟩
          cases ex with
          | ok c2 => exact ih rest hrestlen (n + 1) le2 c2 _ htr2
          | error e => exact htr2

/-- C1: whenever a segment with a present begin is processed, the emitted
begin equals max(begin_ms, last_end_ms) (begin_ms verbatim when the
watermark is unset) and the watermark is then set to end_ms; consequently,
over any sequence of adapter segments fed to a fresh session, every
emitted message begins no earlier than the previous one ended, and the
spec scenario (0.00, 1.72, hello) then (1.70, 3.00, hello world) renders
as 0 1720 hello then 1720 3000 hello world. -/
theorem C1_stitching_nonoverlap :
    (∀ (le : Option ℚ) (b e : ℚ) (t : String),
        format_output_transcript le ⟨some b, e, t⟩ =
          (some (e * 1000),
           some ((match le with
                  | some l => max (b * 1000) l
                  | none => b * 1000), e * 1000, t)))
    ∧ (∀ segs : List Segment,
        List.Chain' (fun p q : ℚ × ℚ × String => p.2.1 ≤ q.1)
          (stitchRun segs).2)
    ∧ ((stitchRun [⟨some 0, 43/25, "hello"⟩,
                   ⟨some (17/10), 3, "hello world"⟩]).2.map renderLine
        = ["0 1720 hello", "1720 3000 hello world"]) := by
  refine ⟨?_, ?_, ?_⟩
  · intro le b e t
    cases le <;> rfl
  · intro segs
    exact stitch_invariant segs none [] List.chain'_nil (by simp)
  · norm_num [stitchRun, stitchStep, format_output_transcript, renderLine,
      fmtMs]
    exact ⟨rfl, rfl⟩

/-- C2: Connection.send is a no-op when the line equals the stored last
line, and otherwise writes the line and stores it; hence over any run of
sends on one connection, no two consecutively written lines are equal. -/
theorem C2_send_dedup :
    (∀ (fail : Bool) (c : Conn),
        Connection.send fail c c.last_line = Except.ok c)
    ∧ (∀ (c : Conn) (line : String), line ≠ c.last_line →
        Connection.send false c line
          = Except.ok { last_line := line, sent := c.sent ++ [line] })
    ∧ (∀ lines : List String,
        List.Chain' (fun a b : String => a ≠ b)
          (runSends Conn.initial lines).sent) := by
  refine ⟨?_, ?_, ?_⟩
  · intro fail c
    simp [Connection.send]
  · intro c line h
    simp [Connection.send, h]
  · intro lines
    exact runSends_invariant lines Conn.initial List.chain'_nil
      (by simp [Conn.initial])

/-- Witness for C2 at a concrete input: sending the letter a on a fresh
connection writes it. -/
theorem C2_send_dedup_witness :
    Connection.send false Conn.initial "a"
      = Except.ok { last_line := "a", sent := Conn.initial.sent ++ ["a"] } :=
  C2_send_dedup.2.1 Conn.initial "a" (by simp [Conn.initial])

/-- C7: a segment with absent begin produces no outgoing message and
leaves the watermark and the connection state unchanged. -/
theorem C7_absent_begin_frame :
    ∀ (le : Option ℚ) (e : ℚ) (t : String) (fail : Bool) (c : Conn),
      format_output_transcript le ⟨none, e, t⟩ = (le, none)
      ∧ send_result fail le c ⟨none, e, t⟩ = (le, Except.ok c) := by
  intro le e t fail c
  exact ⟨rfl, rfl⟩

/-- C9: a fresh Connection has last_line initialized to the empty string,
so a first send of the empty string is a no-op and nothing is written. -/
theorem C9_initial_empty_line_noop :
    Conn.initial.last_line = ""
    ∧ (∀ fail : Bool,
        Connection.send fail Conn.initial "" = Except.ok Conn.initial)
    ∧ (runSends Conn.initial [""]).sent = [] := by
  refine ⟨rfl, ?_, rfl⟩
  intro fail
  rfl

/-- C10: the watermark is set to the raw end_ms of the segment, not to the
clamped begin; on the adapter sequence (0, 2, x) then (0.5, 1, y) the
second emitted message has end 1000 strictly below its emitted begin
2000. -/
theorem C10_watermark_raw_end :
    (∀ (le : Option ℚ) (b e : ℚ) (t : String),
        (format_output_transcript le ⟨some b, e, t⟩).1 = some (e * 1000))
    ∧ (stitchRun [⟨some 0, 2, "x"⟩, ⟨some (1/2), 1, "y"⟩]).2
        = [(0, 2000, "x"), (2000, 1000, "y")]
    ∧ ∃ p ∈ (stitchRun [⟨some 0, 2, "x"⟩, ⟨some (1/2), 1, "y"⟩]).2,
        p.2.1 < p.1 := by
  have hrun : (stitchRun [⟨some 0, 2, "x"⟩, ⟨some (1/2), 1, "y"⟩]).2
      = [(0, 2000, "x"), (2000, 1000, "y")] := by
    norm_num [stitchRun, stitchStep, format_output_transcript]
  refine ⟨?_, hrun, ?_⟩
  · intro le b e t
    cases le <;> rfl
  · refine ⟨((2000 : ℚ), (1000 : ℚ), "y"), ?_, by norm_num⟩
    rw [hrun]
    simp

/-- C3: when receive_audio_chunk returns audio, that audio is the
concatenation of the decoded little-endian PCM16 payloads of the raw reads
it performed, and the loop only stopped because the cumulative sample
count reached min_chunk*SAMPLING_RATE or because a read signalled the
peer-initiated close (the stream ran out). -/
theorem C3_receive_loop_contract (mc : ℚ) (stream : List (List ℕ))
    (hne : ∀ ch ∈ stream, ch ≠ []) (a : List ℚ)
    (ha : (receive_audio_chunk mc stream).1 = some a) :
    ∃ consumed,
      stream = consumed ++ (receive_audio_chunk mc stream).2
      ∧ a = (consumed.map decode_pcm16).flatten
      ∧ (mc * (SAMPLING_RATE : ℚ) ≤ (a.length : ℚ)
         ∨ (receive_audio_chunk mc stream).2 = []) := by
  obtain ⟨consumed, h1, h2, h3⟩ := receive_aux_spec mc stream [] hne
  simp only [receive_audio_chunk] at ha ⊢
  rw [List.nil_append] at h2 h3
  rw [ha] at h2
  by_cases hc : (consumed.map decode_pcm16).isEmpty = true
  · rw [if_pos hc] at h2
    simp at h2
  · rw [if_neg hc] at h2
    injection h2 with haeq
    refine ⟨consumed, h1, haeq, ?_⟩
    cases h3 with
    | inr h => exact Or.inr h
    | inl h =>
        left
        have hlen : (a.length : ℚ)
            = (((consumed.map decode_pcm16).map List.length).sum : ℚ) := by
          rw [haeq]
          exact_mod_cast List.length_flatten (consumed.map decode_pcm16)
        rw [hlen]
        exact h

/-- Witness for C3 at a concrete input: two zero bytes decode to one zero
sample, below the threshold, and the stream closes. -/
theorem C3_receive_loop_contract_witness :
    ∃ consumed,
      ([[0, 0]] : List (List ℕ)) = consumed ++ (receive_audio_chunk 1 [[0, 0]]).2
      ∧ [(0 : ℚ)] = (consumed.map decode_pcm16).flatten
      ∧ ((1 : ℚ) * (SAMPLING_RATE : ℚ) ≤ (([(0 : ℚ)].length : ℚ))
         ∨ (receive_audio_chunk 1 [[0, 0]]).2 = []) :=
  C3_receive_loop_contract 1 [[0, 0]] (by decide) [0]
    (by rw [receive_audio_chunk, receive_aux_cons]
        norm_num [SAMPLING_RATE, decode_pcm16, decodeBytes, i16le,
          receive_aux_nil])

/-- C4: the end-of-stream sentinel comes back exactly when the peer closed
before delivering any bytes; audio collected before close is returned even
below the duration threshold; and a session whose peer sends nothing
produces no output and closes with the ordinary eos reason. -/
theorem C4_eos_sentinel (mc : ℚ) (stream : List (List ℕ))
    (hmc : 0 < mc) (hne : ∀ ch ∈ stream, ch ≠ []) :
    ((receive_audio_chunk mc stream).1 = none ↔ stream = [])
    ∧ (stream ≠ [] →
        (((stream.map decode_pcm16).map List.length).sum : ℚ)
            < mc * (SAMPLING_RATE : ℚ) →
        (receive_audio_chunk mc stream).1
          = some (stream.map decode_pcm16).flatten)
    ∧ (∀ env : Env,
        (ServerProcessor.process mc env []).conn.sent = []
        ∧ (ServerProcessor.process mc env []).closedBy = CloseReason.eos) := by
  refine ⟨receive_none_iff mc stream hmc hne, ?_, ?_⟩
  · intro hs hlt
    rw [receive_below_threshold mc stream hne hs hlt]
  · intro env
    rw [ServerProcessor.process,
      processLoop_eos mc env 0 [] none Conn.initial _ (by rw [receive_empty])]
    exact ⟨rfl, rfl⟩

/-- Witness for C4 at a concrete input: one two-byte chunk is not the
sentinel and is returned whole, and the empty stream closes cleanly. -/
theorem C4_eos_sentinel_witness :
    (¬(receive_audio_chunk 1 [[0, 0]]).1 = none)
    ∧ (receive_audio_chunk 1 [[0, 0]]).1
        = some (([[0, 0]] : List (List ℕ)).map decode_pcm16).flatten
    ∧ (ServerProcessor.process 1 ⟨fun _ => ⟨none, 0, ""⟩, fun _ => false⟩
        []).conn.sent = []
    ∧ (ServerProcessor.process 1 ⟨fun _ => ⟨none, 0, ""⟩, fun _ => false⟩
        []).closedBy = CloseReason.eos := by
  have H := C4_eos_sentinel 1 [[0, 0]] (by norm_num) (by decide)
  refine ⟨fun h => absurd (H.1.mp h) (by decide), ?_, ?_, ?_⟩
  · exact H.2.1 (by decide)
      (by norm_num [decode_pcm16, decodeBytes, i16le, SAMPLING_RATE])
  · exact (H.2.2 ⟨fun _ => ⟨none, 0, ""⟩, fun _ => false⟩).1
  · exact (H.2.2 ⟨fun _ => ⟨none, 0, ""⟩, fun _ => false⟩).2

/-- C5: a connection that delivers some audio totalling less than the
threshold and then closes has exactly that audio passed to the recognition
engine by exactly one insert_audio_chunk call. -/
theorem C5_flush_once (mc : ℚ) (env : Env) (stream : List (List ℕ))
    (hne : ∀ ch ∈ stream, ch ≠ []) (hs : stream ≠ [])
    (hlt : (((stream.map decode_pcm16).map List.length).sum : ℚ)
            < mc * (SAMPLING_RATE : ℚ)) :
    insertedAudio (ServerProcessor.process mc env stream).trace
      = [(stream.map decode_pcm16).flatten] := by
  have hrecv := receive_below_threshold mc stream hne hs hlt
  rw [ServerProcessor.process,
    processLoop_step mc env 0 stream none Conn.initial _ _ _ hrecv]
  rcases hsr : send_result (env.sendFails 0) none Conn.initial (env.segs 0)
    with ⟨le2, ex⟩
  cases ex with
  | ok c2 =>
      show insertedAudio (processLoop mc env (0 + 1) [] le2 c2
          ([AdapterOp.init] ++ [AdapterOp.insert_audio_chunk
              (stream.map decode_pcm16).flatten, AdapterOp.process_iter])).trace
        = [(stream.map decode_pcm16).flatten]
      rw [processLoop_eos mc env (0 + 1) [] le2 c2 _ (by rw [receive_empty])]
      simp [insertedAudio]
  | error e =>
      simp [insertedAudio]

/-- Witness for C5 at a concrete input. -/
theorem C5_flush_once_witness :
    insertedAudio (ServerProcessor.process 1
        ⟨fun _ => ⟨some 0, 1, "x"⟩, fun _ => false⟩ [[0, 0]]).trace
      = [(([[0, 0]] : List (List ℕ)).map decode_pcm16).flatten] :=
  C5_flush_once 1 ⟨fun _ => ⟨some 0, 1, "x"⟩, fun _ => false⟩ [[0, 0]]
    (by decide) (by decide)
    (by norm_num [decode_pcm16, decodeBytes, i16le, SAMPLING_RATE])

/-- C6: a failing send attempt ends the session from any loop state.  At
any iteration n, with any watermark, connection state (so in particular
after any number of earlier successful sends) and recorded trace, when the
iteration receives audio and its send attempt raises, the loop returns at
once with the brokenPipe close reason as an ordinary value: nothing is
propagated.  Every session is such a loop run started from the fresh
state, and the accept loop yields a result for every connection it
serves. -/
theorem C6_send_failure_closes (mc : ℚ) (env : Env) (n : ℕ)
    (stream : List (List ℕ)) (le : Option ℚ) (c : Conn) (tr : List AdapterOp)
    (a : List ℚ) (rest : List (List ℕ))
    (hrecv : receive_audio_chunk mc stream = (some a, rest))
    (hfail : (send_result (env.sendFails n) le c (env.segs n)).2
        = Except.error ()) :
    processLoop mc env n stream le c tr
      = ⟨(send_result (env.sendFails n) le c (env.segs n)).1, c,
         tr ++ [AdapterOp.insert_audio_chunk a, AdapterOp.process_iter],
         CloseReason.brokenPipe⟩
    ∧ (∀ stream2 : List (List ℕ),
        ServerProcessor.process mc env stream2
          = processLoop mc env 0 stream2 none Conn.initial [AdapterOp.init])
    ∧ (∀ conns : List (Env × List (List ℕ)),
        (serve mc conns).length = conns.length) := by
  refine ⟨?_, fun stream2 => rfl, fun conns => by simp [serve]⟩
  rw [processLoop_step mc env n stream le c tr a rest hrecv]
  rcases hsr : send_result (env.sendFails n) le c (env.segs n) with ⟨le2, ex⟩
  rw [hsr] at hfail
  cases ex with
  | ok c2 => simp at hfail
  | error e => rfl

/-- Witness for C6 at a concrete mid-session state: iteration 1, watermark
2000, a connection that already wrote one line, a trace with one earlier
chunk, a pending chunk, and a write that raises. -/
theorem C6_send_failure_closes_witness :
    processLoop 1 ⟨fun _ => ⟨some 2, 3, "y"⟩, fun _ => true⟩ 1 [[0, 0]]
        (some 2000) ⟨"z", ["z"]⟩
        [AdapterOp.init, AdapterOp.insert_audio_chunk [0],
         AdapterOp.process_iter]
      = ⟨(send_result true (some 2000) ⟨"z", ["z"]⟩ ⟨some 2, 3, "y"⟩).1,
         ⟨"z", ["z"]⟩,
         [AdapterOp.init, AdapterOp.insert_audio_chunk [0],
          AdapterOp.process_iter]
           ++ [AdapterOp.insert_audio_chunk [0], AdapterOp.process_iter],
         CloseReason.brokenPipe⟩
    ∧ (∀ stream2 : List (List ℕ),
        ServerProcessor.process 1 ⟨fun _ => ⟨some 2, 3, "y"⟩, fun _ => true⟩
            stream2
          = processLoop 1 ⟨fun _ => ⟨some 2, 3, "y"⟩, fun _ => true⟩ 0 stream2
              none Conn.initial [AdapterOp.init])
    ∧ (∀ conns : List (Env × List (List ℕ)),
        (serve 1 conns).length = conns.length) :=
  C6_send_failure_closes 1 ⟨fun _ => ⟨some 2, 3, "y"⟩, fun _ => true⟩ 1
    [[0, 0]] (some 2000) ⟨"z", ["z"]⟩
    [AdapterOp.init, AdapterOp.insert_audio_chunk [0], AdapterOp.process_iter]
    [0] []
    (by rw [receive_audio_chunk, receive_aux_cons]
        norm_num [SAMPLING_RATE, decode_pcm16, decodeBytes, i16le,
          receive_aux_nil])
    (by norm_num [send_result, format_output_transcript, Connection.send,
          renderLine, fmtMs]
        intro h
        exact absurd h (by decide))

/-- C8: no finalize call on the recognition engine is ever performed: for
every environment and stream, the trace of a completed session never
contains the finish operation. -/
theorem C8_never_finalizes :
    ∀ (mc : ℚ) (env : Env) (stream : List (List ℕ)),
      AdapterOp.finish ∉ (ServerProcessor.process mc env stream).trace := by
  intro mc env stream
  rw [ServerProcessor.process]
  exact processLoop_no_finish mc env stream.length stream (le_refl _) 0 none
    Conn.initial [AdapterOp.init] (by simp)
